import Mathlib

/-!
Shallow embedding of `find_unused_kern_syms.py` (NetBSD unused-kernel-symbol
finder).  External collaborators (`find`, `nm`, `objdump -r`) are modelled as
oracles handed in through an `Env` structure: each oracle yields the full list
of output lines (each line a `String`, including its trailing newline where the
script slices it off).  Python dicts and sets are modelled as association lists
and duplicate-free lists with insertion order; Python's uncaught `ValueError`
(tuple-unpack mismatch) is modelled with `Except`.
-/

/-- Whitespace tokenizer: `acc` holds the reversed characters of the token in
progress. -/
def splitWSAux : List Char → List Char → List String
  | [], acc => if acc.isEmpty then [] else [String.mk acc.reverse]
  | c :: rest, acc =>
    if c.isWhitespace then
      if acc.isEmpty then splitWSAux rest []
      else String.mk acc.reverse :: splitWSAux rest []
    else splitWSAux rest (c :: acc)

/-- Python `str.split()` with no argument: split on whitespace runs, producing
no empty fields. -/
def pySplit (line : String) : List String := splitWSAux line.toList []

/-- Python substring containment `needle in hay` on character lists. -/
def substrOf (needle : List Char) : List Char → Bool
  | [] => needle.isEmpty
  | c :: rest => needle.isPrefixOf (c :: rest) || substrOf needle rest

/-- Python `sym_type in "TDB"` (substring containment, exactly as the script
tests it). -/
def pyInTDB (s : String) : Bool := substrOf s.toList "TDB".toList

/-- Lookup in an association-list model of a Python dict. -/
def dictLookup {α : Type} (d : List (String × α)) (k : String) : Option α :=
  match d with
  | [] => none
  | p :: rest => if p.1 = k then some p.2 else dictLookup rest k

/-- Association-list model of the script's symbol dict: name, owning object file. -/
abbrev Dict := List (String × String)

/-- Python `d[k] = v`: overwrite in place, else append (keys stay unique). -/
def dictInsert (d : Dict) (k v : String) : Dict :=
  match d with
  | [] => [(k, v)]
  | p :: rest => if p.1 = k then (k, v) :: rest else p :: dictInsert rest k v

/-- Python `del d[k]`; keys are unique by construction, so removing every
binding of `k` models it. -/
def dictDelete (d : Dict) (k : String) : Dict := d.filter (fun p => p.1 != k)

/-- Python `s[:n]`. -/
def pyTake (s : String) (n : Nat) : String := String.mk (s.toList.take n)

/-- Python `s[a:-1]`. -/
def pySliceToLast (s : String) (a : Nat) : String :=
  String.mk ((s.toList.drop a).dropLast)

/-- Python `os.path.basename`: the part after the last slash. -/
def baseName (s : String) : String :=
  String.mk ((s.toList.reverse.takeWhile (fun c => c != '/')).reverse)

/-- Lexicographic comparison of character lists (Python string `<=`). -/
def charListLe : List Char → List Char → Bool
  | [], _ => true
  | _ :: _, [] => false
  | a :: as, b :: bs => if a = b then charListLe as bs else decide (a < b)

/-- Python string `<=`, the order used by `list.sort()` here. -/
def pyLe (a b : String) : Prop := charListLe a.toList b.toList = true

instance : DecidableRel pyLe := fun a b =>
  inferInstanceAs (Decidable (charListLe a.toList b.toList = true))

/-- Strict lexicographic order on strings. -/
def pyLt (a b : String) : Prop := pyLe a b ∧ a ≠ b

/-- Python `set.add` on a duplicate-free list keeping insertion order. -/
def setAdd (s : List String) (x : String) : List String :=
  if x ∈ s then s else s ++ [x]

/-- One line of `nm` output (lines 53-56 / 70-73): two or three whitespace
fields; a three-field line drops the leading address (`item.pop(0)`); anything
else is the uncaught `ValueError` of `sym_type, sym_name = item`. -/
def parseNmLine (line : String) : Except String (String × String) :=
  let item := pySplit line
  let item := if item.length = 3 then item.tail else item
  match item with
  | [sym_type, sym_name] => Except.ok (sym_type, sym_name)
  | _ => Except.error "ValueError"

/-- Inner loop of `read_symbols` over one object file's nm output. -/
def readSymbolsLines (filename : String) : List String → Dict → Except String Dict
  | [], symbols => Except.ok symbols
  | line :: rest, symbols =>
    match parseNmLine line with
    | Except.error e => Except.error e
    | Except.ok (sym_type, sym_name) =>
      readSymbolsLines filename rest
        (if pyInTDB sym_type then dictInsert symbols sym_name filename else symbols)

/-- Embeds `read_symbols` (lines 44-59): symbol/object-file mapping for all global
symbols, starting from a given dict (the script starts from `{}`). -/
def read_symbols (nm : String → List String) : List String → Dict → Except String Dict
  | [], symbols => Except.ok symbols
  | filename :: rest, symbols =>
    match readSymbolsLines filename (nm filename) symbols with
    | Except.error e => Except.error e
    | Except.ok symbols => read_symbols nm rest symbols

/-- Inner loop of `read_kernel_symbols` over the kernel binary's nm output. -/
def readKernelLines : List String → List String → Except String (List String)
  | [], symbols => Except.ok symbols
  | line :: rest, symbols =>
    match parseNmLine line with
    | Except.error e => Except.error e
    | Except.ok (sym_type, sym_name) =>
      readKernelLines rest (if pyInTDB sym_type then setAdd symbols sym_name else symbols)

/-- Embeds `read_kernel_symbols` (lines 62-76): the kernel's global symbol names. -/
def read_kernel_symbols (kernelNm : List String) : Except String (List String) :=
  readKernelLines kernelNm []

/-- The target field of a meaningful `objdump -r` line (lines 90-92): nonempty,
exactly three fields, first field not the literal header token OFFSET; the
target is `item[-1]`. -/
def relocLineTarget (line : String) : Option String :=
  let item := pySplit line
  if !item.isEmpty && item.length == 3 && item.headD "" != "OFFSET" then
    some (item.getLastD "")
  else none

/-- Inner loop of `eliminate_used_symbols` over one file's objdump output. -/
def eliminateLines : List String → Dict → Dict
  | [], symbols => symbols
  | line :: rest, symbols =>
    eliminateLines rest
      (match relocLineTarget line with
       | some sym_name =>
         if (dictLookup symbols sym_name).isSome then dictDelete symbols sym_name
         else symbols
       | none => symbols)

/-- Embeds `eliminate_used_symbols` (lines 79-94): remove symbols mentioned in
relocation entries. -/
def eliminate_used_symbols (objdump : String → List String) :
    List String → Dict → Dict
  | [], symbols => symbols
  | filename :: rest, symbols =>
    eliminate_used_symbols objdump rest (eliminateLines (objdump filename) symbols)

/-- The glob pattern `name[:-1] + '[csS]'` passed to find (line 105). -/
def srcPattern (objfile_name : String) : String :=
  String.mk (baseName objfile_name).toList.dropLast ++ "[csS]"

/-- Embeds `find_source_file` (lines 97-111).  Here `findSrc dir pattern` is the oracle for
the output lines of `find dir -name pattern`. -/
def find_source_file (findSrc : String → String → List String)
    (objfile_name sys_dir : String) : String :=
  let pathlen := sys_dir.length - 3
  let file_names := (findSrc sys_dir (srcPattern objfile_name)).map
    (fun line => pySliceToLast line pathlen)
  if file_names.length = 1 then file_names.headD objfile_name else objfile_name

/-- defaultdict(set) insertion: add `v` to the set bound to `k`. -/
def groupInsert (d : List (String × List String)) (k v : String) :
    List (String × List String) :=
  match d with
  | [] => [(k, [v])]
  | p :: rest => if p.1 = k then (k, setAdd p.2 v) :: rest else p :: groupInsert rest k v

/-- First loop of `print_result` (lines 117-121): group the surviving symbols
by attributed source file; the lib/kern test is applied to the owning object
file path before attribution. -/
def build_file_to_syms (findSrc : String → String → List String) (sys_dir : String)
    (keep_libkern : Bool) : Dict → List (String × List String) → List (String × List String)
  | [], d => d
  | (sym_name, file_name) :: rest, d =>
    build_file_to_syms findSrc sys_dir keep_libkern rest
      (if keep_libkern || pyTake file_name 9 != "lib/kern/" then
        groupInsert d (find_source_file findSrc file_name sys_dir) sym_name
      else d)

/-- The gate of lines 128-131: `symbols[0] in kernel_symbols`, on the group's
first enumerated member (groups are nonempty by construction; Python indexes
`list(set)[0]`). -/
def groupKept (kernel_symbols : List String) (g : String × List String) : Bool :=
  match g.2.head? with
  | some s => decide (s ∈ kernel_symbols)
  | none => false

/-- Lines 127-132: the kept file names, sorted. -/
def kept_file_names (file_to_syms : List (String × List String))
    (kernel_symbols : List String) : List String :=
  List.insertionSort pyLe ((file_to_syms.filter (groupKept kernel_symbols)).map Prod.fst)

/-- Line 136-137: one file's symbol names, sorted. -/
def sortSyms (file_to_syms : List (String × List String)) (file_name : String) :
    List String :=
  List.insertionSort pyLe ((dictLookup file_to_syms file_name).getD [])

/-- Print loop of lines 135-142; `last` is `file_names[-1]`, fixed over the
loop.  A printed line is one list element; the blank separator line is `""`. -/
def renderLines (file_to_syms : List (String × List String)) (last : String) :
    List String → List String
  | [] => []
  | file_name :: rest =>
    file_name :: ((sortSyms file_to_syms file_name).map (fun s => "  " ++ s)
      ++ (if file_name = last then [] else [""])
      ++ renderLines file_to_syms last rest)

/-- The printed report for a given kept, sorted file-name list. -/
def render_report (file_to_syms : List (String × List String))
    (file_names : List String) : List String :=
  renderLines file_to_syms (file_names.getLastD "") file_names

/-- The external-tool outputs one run consumes, as line oracles. -/
structure Env where
  nm : String → List String
  objdump : String → List String
  kernelNm : List String
  findSrc : String → String → List String
  findObj : List String

/-- Embeds `print_result` (lines 114-142), composed from its three stages. -/
def print_result (env : Env) (symbols : Dict) (sys_dir : String)
    (keep_libkern : Bool) : Except String (List String) :=
  let file_to_syms := build_file_to_syms env.findSrc sys_dir keep_libkern symbols []
  match read_kernel_symbols env.kernelNm with
  | Except.error e => Except.error e
  | Except.ok kernel_symbols =>
    Except.ok (render_report file_to_syms (kept_file_names file_to_syms kernel_symbols))

/-- Embeds `get_obj_file_names` (lines 30-41): slice `./`-prefixed find lines and drop
lib/kern/libkern.o. -/
def get_obj_file_names (findObj : List String) : List String :=
  (findObj.map (fun line => pySliceToLast line 2)).filter
    (fun f => f != "lib/kern/libkern.o")

/-- The whole pipeline of `main` after argument handling (lines 162-165). -/
def run (env : Env) (sys_dir : String) (keep_libkern : Bool) :
    Except String (List String) :=
  let file_names := get_obj_file_names env.findObj
  match read_symbols env.nm file_names [] with
  | Except.error e => Except.error e
  | Except.ok symbols =>
    print_result env (eliminate_used_symbols env.objdump file_names symbols)
      sys_dir keep_libkern

/-- Spec-level acceptance: the file's nm output defines `name` with classifier
exactly T, D or B. -/
def linesDefineTDB (lines : List String) (name : String) : Bool :=
  lines.any (fun line =>
    match parseNmLine line with
    | Except.ok (t, n) => (t == "T" || t == "D" || t == "B") && n == name
    | Except.error _ => false)

/-- Code-level acceptance: the file's nm output defines `name` with a
classifier passing the substring filter. -/
def linesDefine (lines : List String) (name : String) : Bool :=
  lines.any (fun line =>
    match parseNmLine line with
    | Except.ok (t, n) => pyInTDB t && n == name
    | Except.error _ => false)

/-- The last processed file whose nm output defines `name` (code-level filter). -/
def lastDefiner (nm : String → List String) (files : List String) (name : String) :
    Option String :=
  (files.filter (fun f => linesDefine (nm f) name)).getLast?

/-- The last processed file whose nm output defines `name` with classifier
T, D or B (spec-level filter). -/
def lastDefinerTDB (nm : String → List String) (files : List String) (name : String) :
    Option String :=
  (files.filter (fun f => linesDefineTDB (nm f) name)).getLast?

/-- All target names of meaningful relocation lines across the given files. -/
def relocTargets (objdump : String → List String) (files : List String) :
    List String :=
  (files.map (fun f => (objdump f).filterMap relocLineTarget)).flatten

/-- Report blocks joined with one blank line between consecutive blocks. -/
def joinBlocks : List (List String) → List String
  | [] => []
  | b :: bs => b ++ (if bs.isEmpty then [] else [""] ++ joinBlocks bs)

/-- One report block: header path, then the file's sorted symbols indented. -/
def reportBlock (file_to_syms : List (String × List String)) (file_name : String) :
    List String :=
  file_name :: (sortSyms file_to_syms file_name).map (fun s => "  " ++ s)

/-- Modelled from the spec: a variant of the grouping pass that applies the
lib/kern filter to the attributed path of the file group (the reading the C7
spec sentence asserts), for comparison with `build_file_to_syms`. -/
def build_file_to_syms_specC7 (findSrc : String → String → List String)
    (sys_dir : String) (keep_libkern : Bool) :
    Dict → List (String × List String) → List (String × List String)
  | [], d => d
  | (sym_name, file_name) :: rest, d =>
    build_file_to_syms_specC7 findSrc sys_dir keep_libkern rest
      (let att := find_source_file findSrc file_name sys_dir
       if keep_libkern || pyTake att 9 != "lib/kern/" then groupInsert d att sym_name
       else d)

/-- Modelled from the spec: `print_result` with the spec-side C7 filter. -/
def print_result_specC7 (env : Env) (symbols : Dict) (sys_dir : String)
    (keep_libkern : Bool) : Except String (List String) :=
  let file_to_syms := build_file_to_syms_specC7 env.findSrc sys_dir keep_libkern symbols []
  match read_kernel_symbols env.kernelNm with
  | Except.error e => Except.error e
  | Except.ok kernel_symbols =>
    Except.ok (render_report file_to_syms (kept_file_names file_to_syms kernel_symbols))

/-- Concrete environment: kernel defines only `b`; source search finds nothing. -/
def envC1 : Env :=
  ⟨fun _ => [], fun _ => [], ["T b"], fun _ _ => [], []⟩

/-- Concrete environment: kernel defines only `s1`; every source search yields
the single match `sys/foo.c`. -/
def envC10 : Env :=
  ⟨fun _ => [], fun _ => [], ["T s1"], fun _ _ => ["sys/foo.c\n"], []⟩

/-- Concrete environment: like `envC10` but with an empty kernel symbol table. -/
def envC10b : Env :=
  ⟨fun _ => [], fun _ => [], [], fun _ _ => ["sys/foo.c\n"], []⟩

/-- Concrete environment: kernel defines only `a`; every source search yields
the single match `sys/foo.c`. -/
def envC7 : Env :=
  ⟨fun _ => [], fun _ => [], ["T a"], fun _ _ => ["sys/foo.c\n"], []⟩

/-- Concrete environment with every oracle empty. -/
def envEmpty : Env :=
  ⟨fun _ => [], fun _ => [], [], fun _ _ => [], []⟩

/-! ## Helper lemmas -/

theorem dictLookup_dictInsert (d : Dict) (k v k' : String) :
    dictLookup (dictInsert d k v) k' = if k = k' then some v else dictLookup d k' := by
  induction d with
  | nil => simp [dictInsert, dictLookup]
  | cons p rest ih =>
    by_cases hp : p.1 = k
    · subst hp
      simp only [dictInsert, if_pos rfl]
      by_cases h : p.1 = k' <;> simp [dictLookup, h]
    · simp only [dictInsert, if_neg hp, dictLookup, ih]
      by_cases h2 : p.1 = k'
      · have hk : ¬ k = k' := fun h => hp (h ▸ h2)
        simp [h2, hk]
      · simp [h2]

theorem dictLookup_dictDelete (d : Dict) (k k' : String) :
    dictLookup (dictDelete d k) k' = if k = k' then none else dictLookup d k' := by
  induction d with
  | nil => simp [dictDelete, dictLookup]
  | cons p rest ih =>
    simp only [dictDelete, List.filter_cons] at ih ⊢
    by_cases hp : p.1 = k
    · subst hp
      simp only [bne_self_eq_false, Bool.false_eq_true, if_false, ih]
      by_cases h2 : p.1 = k' <;> simp [h2, dictLookup]
    · have hb : (p.1 != k) = true := by simp [hp]
      simp only [hb, if_true, dictLookup, ih]
      by_cases h2 : p.1 = k'
      · have hk : ¬ k = k' := fun h => hp (h2.trans h.symm)
        simp [h2, hk]
      · simp [h2]

theorem eliminateLines_lookup (lines : List String) :
    ∀ (d : Dict) (n : String), dictLookup (eliminateLines lines d) n =
      if n ∈ lines.filterMap relocLineTarget then none else dictLookup d n := by
  induction lines with
  | nil => intro d n; simp [eliminateLines]
  | cons line rest ih =>
    intro d n
    rw [eliminateLines]
    cases hl : relocLineTarget line with
    | none => rw [ih, List.filterMap_cons, hl]
    | some t =>
      rw [ih, List.filterMap_cons, hl]
      by_cases hr : n ∈ rest.filterMap relocLineTarget
      · simp [hr, List.mem_cons]
      · by_cases hnt : n = t
        · subst hnt
          rw [if_neg hr, if_pos (List.mem_cons.2 (Or.inl rfl))]
          dsimp only
          by_cases hs : (dictLookup d n).isSome = true
          · rw [if_pos hs, dictLookup_dictDelete, if_pos rfl]
          · rw [if_neg hs]
            exact Option.not_isSome_iff_eq_none.1 hs
        · have hm : ¬ n ∈ t :: rest.filterMap relocLineTarget := by
            simp [List.mem_cons, hnt, hr]
          rw [if_neg hr, if_neg hm]
          dsimp only
          by_cases hs : (dictLookup d t).isSome = true
          · rw [if_pos hs, dictLookup_dictDelete, if_neg (fun h : t = n => hnt h.symm)]
          · rw [if_neg hs]

theorem eliminate_lookup (objdump : String → List String) (files : List String) :
    ∀ (d : Dict) (n : String), dictLookup (eliminate_used_symbols objdump files d) n =
      if n ∈ relocTargets objdump files then none else dictLookup d n := by
  induction files with
  | nil => intro d n; simp [eliminate_used_symbols, relocTargets]
  | cons f rest ih =>
    intro d n
    rw [eliminate_used_symbols, ih, eliminateLines_lookup]
    have hsplit : relocTargets objdump (f :: rest) =
        (objdump f).filterMap relocLineTarget ++ relocTargets objdump rest := by
      simp [relocTargets]
    rw [hsplit]
    by_cases h1 : n ∈ relocTargets objdump rest
    · simp [h1, List.mem_append]
    · by_cases h2 : n ∈ (objdump f).filterMap relocLineTarget
      · simp [h1, h2, List.mem_append]
      · simp [h1, h2, List.mem_append]

theorem parseNmLine_error (line : String) (h2 : (pySplit line).length ≠ 2)
    (h3 : (pySplit line).length ≠ 3) : parseNmLine line = Except.error "ValueError" := by
  rw [parseNmLine]
  simp only [if_neg h3]
  cases hl : pySplit line with
  | nil => rfl
  | cons a t =>
    cases t with
    | nil => rfl
    | cons b t2 =>
      cases t2 with
      | nil => rw [hl] at h2; simp at h2
      | cons c t3 => rfl

/-! ## C4: determinism -/

/-- C4: the whole pipeline is deterministic — two runs over identical
external-tool outputs (the same `Env`), the same source directory and the same
flag produce identical reports. -/
theorem c4_deterministic (e₁ e₂ : Env) (s₁ s₂ : String) (k₁ k₂ : Bool)
    (he : e₁ = e₂) (hs : s₁ = s₂) (hk : k₁ = k₂) :
    run e₁ s₁ k₁ = run e₂ s₂ k₂ := by
  subst he; subst hs; subst hk; rfl

/-- Witness for C4 at a concrete environment. -/
theorem c4_witness : run envEmpty "sys" false = run envEmpty "sys" false :=
  c4_deterministic envEmpty envEmpty "sys" "sys" false false rfl rfl rfl

/-! ## C9: malformed symbol-table lines are fatal -/

theorem readSymbolsLines_error (f : String) :
    ∀ (lines : List String) (symbols : Dict) (line : String), line ∈ lines →
      parseNmLine line = Except.error "ValueError" →
      ∃ e, readSymbolsLines f lines symbols = Except.error e := by
  intro lines
  induction lines with
  | nil => intro _ _ h; exact absurd h (List.not_mem_nil _)
  | cons l rest ih =>
    intro symbols line hmem hbad
    rw [readSymbolsLines]
    cases hp : parseNmLine l with
    | error e => exact ⟨e, rfl⟩
    | ok p =>
      obtain ⟨t, n⟩ := p
      have : line ∈ rest := by
        rcases List.mem_cons.1 hmem with h | h
        · subst h; rw [hp] at hbad; exact absurd hbad (by simp)
        · exact h
      exact ih _ line this hbad

theorem readKernelLines_error :
    ∀ (lines : List String) (symbols : List String) (line : String), line ∈ lines →
      parseNmLine line = Except.error "ValueError" →
      ∃ e, readKernelLines lines symbols = Except.error e := by
  intro lines
  induction lines with
  | nil => intro _ _ h; exact absurd h (List.not_mem_nil _)
  | cons l rest ih =>
    intro symbols line hmem hbad
    rw [readKernelLines]
    cases hp : parseNmLine l with
    | error e => exact ⟨e, rfl⟩
    | ok p =>
      obtain ⟨t, n⟩ := p
      have : line ∈ rest := by
        rcases List.mem_cons.1 hmem with h | h
        · subst h; rw [hp] at hbad; exact absurd hbad (by simp)
        · exact h
      exact ih _ line this hbad

/-- C9: a symbol-table line that does not have exactly two fields left after
the three-field address drop (0, 1, or ≥ 4 fields) makes both symbol-table
reads fail with the uncaught unpack error instead of being skipped. -/
theorem c9_malformed_line_fatal (nmLines : List String) (filename : String)
    (symbols : Dict) (kset : List String) (line : String) (hmem : line ∈ nmLines)
    (h2 : (pySplit line).length ≠ 2) (h3 : (pySplit line).length ≠ 3) :
    (∃ e, readSymbolsLines filename nmLines symbols = Except.error e) ∧
    (∃ e, readKernelLines nmLines kset = Except.error e) :=
  ⟨readSymbolsLines_error filename nmLines symbols line hmem (parseNmLine_error line h2 h3),
   readKernelLines_error nmLines kset line hmem (parseNmLine_error line h2 h3)⟩

/-- Witness for C9: a one-field line aborts both reads. -/
theorem c9_witness :
    (∃ e, readSymbolsLines "f.o" ["justonefield"] [] = Except.error e) ∧
    (∃ e, readKernelLines ["justonefield"] [] = Except.error e) :=
  c9_malformed_line_fatal ["justonefield"] "f.o" [] [] "justonefield"
    (by decide) (by decide) (by decide)

/-! ## C2: usage elimination -/

/-- C2: a symbol of the initial universe is deleted exactly when its name is
the target field of some meaningful relocation line (three fields, first field
not OFFSET) of some processed file; otherwise it keeps its original mapping. -/
theorem c2_usage_elimination (objdump : String → List String) (files : List String)
    (symbols : Dict) (S : String) (hS : (dictLookup symbols S).isSome = true) :
    (S ∈ relocTargets objdump files →
      dictLookup (eliminate_used_symbols objdump files symbols) S = none) ∧
    (S ∉ relocTargets objdump files →
      dictLookup (eliminate_used_symbols objdump files symbols) S = dictLookup symbols S) := by
  constructor
  · intro h; rw [eliminate_lookup, if_pos h]
  · intro h; rw [eliminate_lookup, if_neg h]

/-- Witness for C2: `zs` is referenced by a relocation line and is deleted;
`keep` is referenced by none and survives with its original file. -/
theorem c2_witness :
    dictLookup (eliminate_used_symbols (fun _ => ["000007a6 UNKNOWN zs"]) ["a.o"]
      [("zs", "a.o"), ("keep", "a.o")]) "zs" = none ∧
    dictLookup (eliminate_used_symbols (fun _ => ["000007a6 UNKNOWN zs"]) ["a.o"]
      [("zs", "a.o"), ("keep", "a.o")]) "keep" = some "a.o" := by
  refine ⟨(c2_usage_elimination (fun _ => ["000007a6 UNKNOWN zs"]) ["a.o"]
      [("zs", "a.o"), ("keep", "a.o")] "zs" (by decide)).1 (by decide),
    ((c2_usage_elimination (fun _ => ["000007a6 UNKNOWN zs"]) ["a.o"]
      [("zs", "a.o"), ("keep", "a.o")] "keep" (by decide)).2 (by decide)).trans (by decide)⟩

/-! ## C3: classifier filtering -/

theorem substrOf_singleton (c : Char) (l : List Char) :
    substrOf [c] l = true ↔ c ∈ l := by
  induction l with
  | nil => simp [substrOf, List.isEmpty]
  | cons a rest ih =>
    rw [substrOf]
    simp [List.isPrefixOf, ih, List.mem_cons, Bool.or_eq_true, beq_iff_eq]

/-- C3 fails as stated: the script's classifier test is Python substring
containment in "TDB", so the two-character classifier field "TD" — outside the
set {T, D, B} — still adds an entry to both the symbol universe and the kernel
symbol set. -/
theorem c3_counterexample :
    parseNmLine "TD foo" = Except.ok ("TD", "foo") ∧
    ("TD" ≠ "T" ∧ "TD" ≠ "D" ∧ "TD" ≠ "B" ∧ "TD" ≠ "U") ∧
    readSymbolsLines "f.o" ["TD foo"] [] = Except.ok [("foo", "f.o")] ∧
    readKernelLines ["TD foo"] [] = Except.ok ["foo"] :=
  ⟨rfl, by decide, rfl, rfl⟩

/-- C3 amended: a parsed line adds an entry (to SymbolUniverse in
`read_symbols`, to KernelSymbolSet in `read_kernel_symbols`) exactly when its
classifier field is a contiguous substring of "TDB"; in particular every
single-character classifier other than 'T', 'D', 'B' — such as 'U' — adds
nothing.  Multi-character fields "TD", "DB", "TDB" slip through the filter. -/
theorem c3_amended (line t n filename : String) (symbols : Dict) (kset : List String)
    (hp : parseNmLine line = Except.ok (t, n)) :
    (pyInTDB t = false →
      readSymbolsLines filename [line] symbols = Except.ok symbols ∧
      readKernelLines [line] kset = Except.ok kset) ∧
    (pyInTDB t = true →
      readSymbolsLines filename [line] symbols = Except.ok (dictInsert symbols n filename) ∧
      readKernelLines [line] kset = Except.ok (setAdd kset n)) ∧
    (t.length = 1 → t ≠ "T" → t ≠ "D" → t ≠ "B" → pyInTDB t = false) := by
  refine ⟨fun h => ?_, fun h => ?_, fun h1 hT hD hB => ?_⟩
  · constructor
    · simp [readSymbolsLines, hp, h]
    · simp [readKernelLines, hp, h]
  · constructor
    · simp [readSymbolsLines, hp, h]
    · simp [readKernelLines, hp, h]
  · have h1' : t.data.length = 1 := h1
    obtain ⟨c, hc⟩ := List.length_eq_one.1 h1'
    have hrw : pyInTDB t = substrOf [c] "TDB".toList := by
      rw [pyInTDB, show t.toList = [c] from hc]
    rw [hrw]
    by_contra hno
    have htrue : substrOf [c] "TDB".toList = true := by
      cases hb : substrOf [c] "TDB".toList
      · exact absurd hb hno
      · rfl
    have hmem : c = 'T' ∨ c = 'D' ∨ c = 'B' := by
      simpa using (substrOf_singleton c _).1 htrue
    rcases hmem with h | h | h
    · exact hT (String.ext_iff.mpr (by rw [hc, h]))
    · exact hD (String.ext_iff.mpr (by rw [hc, h]))
    · exact hB (String.ext_iff.mpr (by rw [hc, h]))

/-- Witness for C3 amended: a 'U' line adds nothing to either read. -/
theorem c3_witness :
    readSymbolsLines "f.o" [" U foo"] [] = Except.ok [] ∧
    readKernelLines [" U foo"] [] = Except.ok [] ∧
    pyInTDB "U" = false := by
  have h := c3_amended " U foo" "U" "foo" "f.o" [] [] rfl
  exact ⟨(h.1 rfl).1, (h.1 rfl).2, h.2.2 rfl (by decide) (by decide) (by decide)⟩

/-! ## C1: final-kernel gating -/

/-- C1 fails as stated: the attributed group for `x.o` is {a, b}; `b` is a
member of the kernel symbol set, yet the report is empty, because the gate of
line 130 tests only the representative element `list(set)[0] = "a"`. -/
theorem c1_counterexample :
    build_file_to_syms envC1.findSrc "sys" true [("a", "x.o"), ("b", "x.o")] [] =
      [("x.o", ["a", "b"])] ∧
    read_kernel_symbols envC1.kernelNm = Except.ok ["b"] ∧
    ("b" ∈ ["a", "b"] ∧ "b" ∈ ["b"]) ∧
    print_result envC1 [("a", "x.o"), ("b", "x.o")] "sys" true = Except.ok [] :=
  ⟨rfl, rfl, by decide, rfl⟩

theorem groupKept_iff (ks : List String) (g : String × List String) :
    groupKept ks g = true ↔ ∃ s, g.2.head? = some s ∧ s ∈ ks := by
  rw [groupKept]
  cases hh : g.2.head? with
  | none => simp
  | some s => simp

/-- C1 amended: a file group passes the final filter (appears in the kept,
sorted file-name list the report prints) iff the group's first enumerated
member symbol is in the kernel symbol set; membership of some member is
necessary but not sufficient. -/
theorem c1_amended (file_to_syms : List (String × List String))
    (kernel_symbols : List String) (f : String) :
    f ∈ kept_file_names file_to_syms kernel_symbols ↔
      ∃ syms, (f, syms) ∈ file_to_syms ∧
        ∃ s, syms.head? = some s ∧ s ∈ kernel_symbols := by
  rw [kept_file_names, (List.perm_insertionSort pyLe _).mem_iff]
  constructor
  · intro h
    obtain ⟨g, hg, hf⟩ := List.mem_map.1 h
    obtain ⟨hgd, hk⟩ := List.mem_filter.1 hg
    obtain ⟨s, hh, hks⟩ := (groupKept_iff _ _).1 hk
    refine ⟨g.2, ?_, s, hh, hks⟩
    have heq : (f, g.2) = g := by rw [← hf]
    rw [heq]; exact hgd
  · rintro ⟨syms, hmem, s, hh, hks⟩
    exact List.mem_map.2
      ⟨(f, syms), List.mem_filter.2 ⟨hmem, (groupKept_iff _ _).2 ⟨s, hh, hks⟩⟩, rfl⟩

/-! ## C10: grouping is keyed by attributed path -/

/-- C10: the symbols `s1` (owned by a.o) and `s2` (owned by b.o) attribute to
the same source path and are merged into one file group; the kernel gate is
applied once to the merged group, so `s1` being in the kernel makes b.o's
symbol `s2` reported too, and with an empty kernel table the whole merged
group vanishes. -/
theorem c10_grouping_by_attributed_path :
    build_file_to_syms envC10.findSrc "sys" false [("s1", "a.o"), ("s2", "b.o")] [] =
      [("sys/foo.c", ["s1", "s2"])] ∧
    print_result envC10 [("s1", "a.o"), ("s2", "b.o")] "sys" false =
      Except.ok ["sys/foo.c", "  s1", "  s2"] ∧
    print_result envC10b [("s1", "a.o"), ("s2", "b.o")] "sys" false = Except.ok [] :=
  ⟨rfl, rfl, rfl⟩

/-! ## C6: source attribution -/

theorem find_source_file_single (findSrc : String → String → List String)
    (obj sysd line : String) (h : findSrc sysd (srcPattern obj) = [line]) :
    find_source_file findSrc obj sysd = pySliceToLast line (sysd.length - 3) := by
  simp [find_source_file, h]

theorem find_source_file_notone (findSrc : String → String → List String)
    (obj sysd : String) (h : (findSrc sysd (srcPattern obj)).length ≠ 1) :
    find_source_file findSrc obj sysd = obj := by
  simp only [find_source_file, List.length_map]
  rw [if_neg h]

theorem pySliceToLast_shape (pre t : String) :
    pySliceToLast ((pre ++ "sys") ++ t ++ "\n") ((pre ++ "sys").length - 3) = "sys" ++ t := by
  have hlen : (pre ++ "sys").length - 3 = pre.length := by
    rw [String.length_append]
    have h3 : ("sys" : String).length = 3 := rfl
    rw [h3]
    omega
  rw [pySliceToLast, hlen]
  have hdata : ((pre ++ "sys") ++ t ++ "\n").toList =
      pre.toList ++ (("sys".toList ++ t.toList) ++ ['\n']) := by
    show ((pre ++ "sys") ++ t ++ "\n").data =
      pre.data ++ (("sys".data ++ t.data) ++ ['\n'])
    simp [String.data_append, List.append_assoc]
  rw [hdata]
  rw [show pre.length = pre.toList.length from rfl, List.drop_left]
  rw [List.dropLast_concat]
  show String.mk ("sys".data ++ t.data) = "sys" ++ t
  rw [← String.data_append]

/-- C6: when the source search returns exactly one line (of the shape
`sys_dir ++ tail ++ newline` that find produces), attribution returns the
match sliced to keep the path through `sys`; when the search returns zero or
several lines, attribution falls back to the object file path.  The function
is total — it cannot raise. -/
theorem c6_source_attribution (findSrc : String → String → List String)
    (objfile_name pre : String) :
    (∀ t, findSrc (pre ++ "sys") (srcPattern objfile_name) = [(pre ++ "sys") ++ t ++ "\n"] →
      find_source_file findSrc objfile_name (pre ++ "sys") = "sys" ++ t) ∧
    ((findSrc (pre ++ "sys") (srcPattern objfile_name)).length ≠ 1 →
      find_source_file findSrc objfile_name (pre ++ "sys") = objfile_name) := by
  constructor
  · intro t h
    rw [find_source_file_single findSrc objfile_name (pre ++ "sys") _ h]
    exact pySliceToLast_shape pre t
  · intro h
    exact find_source_file_notone findSrc objfile_name (pre ++ "sys") h

/-- Witness for C6: a unique match attributes to it; an empty search result
falls back to the object file name. -/
theorem c6_witness :
    find_source_file (fun _ _ => ["sys/a.c\n"]) "a.o" "sys" = "sys" ++ "/a.c" ∧
    find_source_file (fun _ _ => []) "a.o" "sys" = "a.o" :=
  ⟨(c6_source_attribution (fun _ _ => ["sys/a.c\n"]) "a.o" "").1 "/a.c" rfl,
   (c6_source_attribution (fun _ _ => []) "a.o" "").2 (by decide)⟩

/-! ## C7: lib/kern exclusion -/

theorem pyTake_sys_ne (t : String) : pyTake ("sys" ++ t) 9 ≠ "lib/kern/" := by
  intro h
  have h1 : (pyTake ("sys" ++ t) 9).data.head? = some 's' := by
    show (("sys" ++ t).toList.take 9).head? = some 's'
    have hdd : ("sys" ++ t).toList = 's' :: 'y' :: 's' :: t.data := by
      show ("sys" ++ t).data = _
      have hsysd : ("sys" : String).data = ['s', 'y', 's'] := by decide
      rw [String.data_append, hsysd]
      rfl
    rw [hdd]
    rfl
  rw [h] at h1
  exact absurd h1 (by decide)

theorem groupInsert_keys_iff (d : List (String × List String)) (k v k' : String) :
    k' ∈ (groupInsert d k v).map Prod.fst ↔ k' = k ∨ k' ∈ d.map Prod.fst := by
  induction d with
  | nil => simp [groupInsert]
  | cons p rest ih =>
    by_cases hp : p.1 = k
    · subst hp
      rw [groupInsert, if_pos rfl]
      simp only [List.map_cons, List.mem_cons]
      tauto
    · rw [groupInsert, if_neg hp]
      simp only [List.map_cons, List.mem_cons, ih]
      tauto

theorem build_keys (findSrc : String → String → List String) (sys_dir : String)
    (keep : Bool) :
    ∀ (symbols : Dict) (d : List (String × List String)) (k : String),
      k ∈ (build_file_to_syms findSrc sys_dir keep symbols d).map Prod.fst →
      k ∈ d.map Prod.fst ∨ ∃ sym file, (sym, file) ∈ symbols ∧
        (keep || pyTake file 9 != "lib/kern/") = true ∧
        k = find_source_file findSrc file sys_dir := by
  intro symbols
  induction symbols with
  | nil => intro d k h; exact Or.inl h
  | cons p rest ih =>
    obtain ⟨sym, file⟩ := p
    intro d k h
    rw [build_file_to_syms] at h
    by_cases hc : (keep || pyTake file 9 != "lib/kern/") = true
    · rw [if_pos hc] at h
      rcases ih _ k h with h2 | h2
      · rcases (groupInsert_keys_iff _ _ _ _).1 h2 with h3 | h3
        · exact Or.inr ⟨sym, file, List.mem_cons_self _ _, hc, h3⟩
        · exact Or.inl h3
      · obtain ⟨s2, f2, hm, hc2, hk2⟩ := h2
        exact Or.inr ⟨s2, f2, List.mem_cons_of_mem _ hm, hc2, hk2⟩
    · rw [if_neg hc] at h
      rcases ih _ k h with h2 | h2
      · exact Or.inl h2
      · obtain ⟨s2, f2, hm, hc2, hk2⟩ := h2
        exact Or.inr ⟨s2, f2, List.mem_cons_of_mem _ hm, hc2, hk2⟩

theorem find_source_file_shape (findSrc : String → String → List String)
    (file pre : String)
    (hfind : ∀ line ∈ findSrc (pre ++ "sys") (srcPattern file),
      ∃ t, line = (pre ++ "sys") ++ t ++ "\n") :
    find_source_file findSrc file (pre ++ "sys") = file ∨
    ∃ t, find_source_file findSrc file (pre ++ "sys") = "sys" ++ t := by
  by_cases hlen : (findSrc (pre ++ "sys") (srcPattern file)).length = 1
  · obtain ⟨line, hline⟩ := List.length_eq_one.1 hlen
    obtain ⟨t, ht⟩ := hfind line (by rw [hline]; exact List.mem_singleton_self _)
    right
    refine ⟨t, ?_⟩
    rw [find_source_file_single findSrc file (pre ++ "sys") line hline, ht]
    exact pySliceToLast_shape pre t
  · exact Or.inl (find_source_file_notone findSrc file (pre ++ "sys") hlen)

/-- C7 fails in part: the prefix filter of line 119 is applied to the owning
object-file path before attribution, not to the attributed path of the file
group as the spec sentence says; with the flag off the code drops
lib/kern/x.o even though its attributed path sys/foo.c does not carry the
prefix, while the spec-side variant keeps it. -/
theorem c7_counterexample :
    print_result envC7 [("a", "lib/kern/x.o")] "sys" false = Except.ok [] ∧
    print_result_specC7 envC7 [("a", "lib/kern/x.o")] "sys" false =
      Except.ok ["sys/foo.c", "  a"] ∧
    pyTake "lib/kern/x.o" 9 = "lib/kern/" ∧ pyTake "sys/foo.c" 9 ≠ "lib/kern/" :=
  ⟨rfl, rfl, rfl, by decide⟩

/-- C7 amended: the inclusion test is applied to the owning object-file path;
still, with the flag off (and find results rooted under the sys directory) no
reported file path begins with "lib/kern/", and with the flag on a lib/kern
group can appear in the kept list. -/
theorem c7_amended (env : Env) (symbols : Dict) (pre : String)
    (kernel_symbols : List String) (f : String)
    (hfind : ∀ file, ∀ line ∈ env.findSrc (pre ++ "sys") (srcPattern file),
      ∃ t, line = (pre ++ "sys") ++ t ++ "\n") :
    (f ∈ kept_file_names
        (build_file_to_syms env.findSrc (pre ++ "sys") false symbols []) kernel_symbols →
      pyTake f 9 ≠ "lib/kern/") ∧
    kept_file_names
      (build_file_to_syms (fun _ _ => []) "sys" true [("a", "lib/kern/x.o")] [])
      ["a"] = ["lib/kern/x.o"] := by
  constructor
  · intro hmem
    have h1 : f ∈ (build_file_to_syms env.findSrc (pre ++ "sys") false symbols []).map
        Prod.fst := by
      rw [kept_file_names, (List.perm_insertionSort pyLe _).mem_iff] at hmem
      obtain ⟨g, hg, hf⟩ := List.mem_map.1 hmem
      exact List.mem_map.2 ⟨g, (List.mem_filter.1 hg).1, hf⟩
    rcases build_keys env.findSrc (pre ++ "sys") false symbols [] f h1 with h2 | h2
    · simp at h2
    · obtain ⟨sym, file, hm, hc, hk⟩ := h2
      have hfile : pyTake file 9 ≠ "lib/kern/" := by
        simp only [Bool.false_or] at hc
        exact bne_iff_ne.1 hc
      rcases find_source_file_shape env.findSrc file pre (hfind file) with h3 | ⟨t, h3⟩
      · rw [hk, h3]; exact hfile
      · rw [hk, h3]; exact pyTake_sys_ne t
  · rfl

/-- Witness for C7 amended at a concrete environment. -/
theorem c7_witness :
    pyTake "sys/foo.c" 9 ≠ "lib/kern/" ∧
    kept_file_names (build_file_to_syms (fun _ _ => []) "sys" true
      [("a", "lib/kern/x.o")] []) ["a"] = ["lib/kern/x.o"] := by
  have hf : ∀ file, ∀ line ∈ envC7.findSrc ("" ++ "sys") (srcPattern file),
      ∃ t, line = ("" ++ "sys") ++ t ++ "\n" := by
    intro file line hl
    have hline : line = "sys/foo.c\n" := by simpa [envC7] using hl
    exact ⟨"/foo.c", by rw [hline]; decide⟩
  have h := c7_amended envC7 [("a", "x.o")] "" ["a"] "sys/foo.c" hf
  exact ⟨h.1 (by decide), h.2⟩

/-! ## C5: last-write-wins symbol table -/

theorem readSymbolsLines_lookup (f : String) :
    ∀ (lines : List String) (syms d : Dict) (n : String),
      readSymbolsLines f lines syms = Except.ok d →
      dictLookup d n = if linesDefine lines n then some f else dictLookup syms n := by
  intro lines
  induction lines with
  | nil =>
    intro syms d n h
    rw [readSymbolsLines] at h
    cases h
    simp [linesDefine]
  | cons line rest ih =>
    intro syms d n h
    rw [readSymbolsLines] at h
    cases hp : parseNmLine line with
    | error e => rw [hp] at h; simp at h
    | ok p =>
      obtain ⟨t, m⟩ := p
      rw [hp] at h
      dsimp only at h
      have hi := ih _ d n h
      have hdef : linesDefine (line :: rest) n =
          ((pyInTDB t && m == n) || linesDefine rest n) := by
        rw [linesDefine, List.any_cons, hp]
        rw [show linesDefine rest n = rest.any (fun l =>
          match parseNmLine l with
          | Except.ok (t, n2) => pyInTDB t && n2 == n
          | Except.error _ => false) from rfl]
      rw [hdef]
      by_cases hr : linesDefine rest n = true
      · rw [hi, if_pos hr]
        simp [hr]
      · have hr' : linesDefine rest n = false := by
          cases hb : linesDefine rest n
          · rfl
          · exact absurd hb hr
        rw [hi, if_neg hr]
        cases hT : pyInTDB t with
        | false => simp [hT, hr']
        | true =>
          simp only [hT, if_true, Bool.true_and, hr', Bool.or_false]
          rw [dictLookup_dictInsert]
          by_cases hm : m = n
          · rw [if_pos hm]
            simp [hm]
          · rw [if_neg hm]
            simp [hm]

theorem read_symbols_lookup (nm : String → List String) :
    ∀ (files : List String) (syms d : Dict) (n : String),
      read_symbols nm files syms = Except.ok d →
      dictLookup d n = (lastDefiner nm files n).or (dictLookup syms n) := by
  intro files
  induction files with
  | nil =>
    intro syms d n h
    rw [read_symbols] at h
    cases h
    simp [lastDefiner]
  | cons f fs ih =>
    intro syms d n h
    rw [read_symbols] at h
    cases hl : readSymbolsLines f (nm f) syms with
    | error e => rw [hl] at h; simp at h
    | ok syms' =>
      rw [hl] at h
      dsimp only at h
      have hi := ih syms' d n h
      have hsub := readSymbolsLines_lookup f (nm f) syms syms' n hl
      rw [hi, hsub, lastDefiner, lastDefiner, List.filter_cons]
      by_cases hp : linesDefine (nm f) n = true
      · rw [if_pos (by simpa using hp), if_pos hp]
        rw [show (f :: List.filter (fun g => linesDefine (nm g) n) fs) =
          [f] ++ List.filter (fun g => linesDefine (nm g) n) fs from rfl]
        rw [List.getLast?_append]
        cases hgl : (List.filter (fun g => linesDefine (nm g) n) fs).getLast? with
        | none => rfl
        | some g => rfl
      · have hp2 : ¬ ((fun g => linesDefine (nm g) n) f = true) := by simpa using hp
        rw [if_neg hp2, if_neg hp]

theorem pyInTDB_single (t : String) (h : t.length = 1) :
    pyInTDB t = (t == "T" || t == "D" || t == "B") := by
  obtain ⟨c, hc⟩ := List.length_eq_one.1 (h : t.data.length = 1)
  have ht : t = String.mk [c] := String.ext_iff.mpr hc
  subst ht
  have hmem : pyInTDB (String.mk [c]) = true ↔ (c = 'T' ∨ c = 'D' ∨ c = 'B') := by
    rw [pyInTDB]
    show substrOf [c] "TDB".toList = true ↔ _
    rw [substrOf_singleton]
    show c ∈ ['T', 'D', 'B'] ↔ _
    simp
  have hT : (String.mk [c] = "T") ↔ c = 'T' := by
    rw [String.ext_iff]
    show [c] = ['T'] ↔ c = 'T'
    simp
  have hD : (String.mk [c] = "D") ↔ c = 'D' := by
    rw [String.ext_iff]
    show [c] = ['D'] ↔ c = 'D'
    simp
  have hB : (String.mk [c] = "B") ↔ c = 'B' := by
    rw [String.ext_iff]
    show [c] = ['B'] ↔ c = 'B'
    simp
  by_cases h1 : c = 'T'
  · subst h1; decide
  · by_cases h2 : c = 'D'
    · subst h2; decide
    · by_cases h3 : c = 'B'
      · subst h3; decide
      · have hl : pyInTDB (String.mk [c]) = false := by
          cases hb : pyInTDB (String.mk [c])
          · rfl
          · exact absurd (hmem.1 hb) (by simp [h1, h2, h3])
        rw [hl]
        symm
        simp only [Bool.or_eq_false_iff, beq_eq_false_iff_ne, Ne]
        exact ⟨⟨fun he => h1 (hT.1 he), fun he => h2 (hD.1 he)⟩, fun he => h3 (hB.1 he)⟩

theorem linesDefine_eq_TDB : ∀ (lines : List String) (name : String),
    (∀ line ∈ lines, ∀ t m, parseNmLine line = Except.ok (t, m) → t.length = 1) →
    linesDefine lines name = linesDefineTDB lines name := by
  intro lines
  induction lines with
  | nil => intro name hc; rfl
  | cons line rest ih =>
    intro name hc
    have h1 : linesDefine (line :: rest) name =
        ((match parseNmLine line with
          | Except.ok (t, n2) => pyInTDB t && n2 == name
          | Except.error _ => false) || linesDefine rest name) := by
      rw [linesDefine, List.any_cons]
      rw [show linesDefine rest name = rest.any (fun l =>
        match parseNmLine l with
        | Except.ok (t, n2) => pyInTDB t && n2 == name
        | Except.error _ => false) from rfl]
    have h2 : linesDefineTDB (line :: rest) name =
        ((match parseNmLine line with
          | Except.ok (t, n2) => (t == "T" || t == "D" || t == "B") && n2 == name
          | Except.error _ => false) || linesDefineTDB rest name) := by
      rw [linesDefineTDB, List.any_cons]
      rw [show linesDefineTDB rest name = rest.any (fun l =>
        match parseNmLine l with
        | Except.ok (t, n2) => (t == "T" || t == "D" || t == "B") && n2 == name
        | Except.error _ => false) from rfl]
    rw [h1, h2, ih name (fun l hl => hc l (List.mem_cons_of_mem _ hl))]
    congr 1
    cases hp : parseNmLine line with
    | error e => rfl
    | ok p =>
      obtain ⟨t, m⟩ := p
      dsimp only
      rw [pyInTDB_single t (hc line (List.mem_cons_self _ _) t m hp)]

theorem lastDefiner_eq_TDB (nm : String → List String) (files : List String)
    (name : String)
    (hc : ∀ f ∈ files, ∀ line ∈ nm f, ∀ t m,
      parseNmLine line = Except.ok (t, m) → t.length = 1) :
    lastDefiner nm files name = lastDefinerTDB nm files name := by
  rw [lastDefiner, lastDefinerTDB]
  congr 1
  apply List.filter_congr
  intro f hf
  exact linesDefine_eq_TDB (nm f) name (hc f hf)

/-- C5: a name present in the symbol universe after `read_symbols` is mapped
to exactly the last processed object file whose nm output defines it with
classifier T, D or B (given well-formed single-character classifier fields);
later files overwrite earlier ones.  Since the files list is arbitrary, this
holds for every processed prefix, i.e. at every point of the build. -/
theorem c5_last_write_wins (nm : String → List String) (files : List String)
    (d : Dict) (name : String)
    (hok : read_symbols nm files [] = Except.ok d)
    (hc : ∀ f ∈ files, ∀ line ∈ nm f, ∀ t m,
      parseNmLine line = Except.ok (t, m) → t.length = 1) :
    dictLookup d name = lastDefinerTDB nm files name := by
  have h := read_symbols_lookup nm files [] d name hok
  rw [show dictLookup ([] : Dict) name = none from rfl] at h
  rw [h, Option.or_none, lastDefiner_eq_TDB nm files name hc]

/-- Witness for C5: both a.o and b.o define foo; the later file wins. -/
theorem c5_witness :
    dictLookup [("foo", "b.o")] "foo" =
      lastDefinerTDB (fun _ => ["T foo"]) ["a.o", "b.o"] "foo" := by
  apply c5_last_write_wins (fun _ => ["T foo"]) ["a.o", "b.o"] [("foo", "b.o")] "foo" rfl
  intro f hf line hl t m hp
  have hline : line = "T foo" := by simpa using hl
  subst hline
  have hpair : ("T", "foo") = (t, m) := Except.ok.inj hp
  have ht : t = "T" := (congrArg Prod.fst hpair).symm
  rw [ht]
  decide

/-! ## C8: report format and sort order -/

theorem charListLe_total : ∀ as bs : List Char,
    charListLe as bs = true ∨ charListLe bs as = true := by
  intro as
  induction as with
  | nil => intro bs; exact Or.inl rfl
  | cons a as2 ih =>
    intro bs
    cases bs with
    | nil => exact Or.inr rfl
    | cons b bs2 =>
      by_cases hab : a = b
      · subst hab
        rcases ih bs2 with h | h
        · left; rw [charListLe, if_pos rfl]; exact h
        · right; rw [charListLe, if_pos rfl]; exact h
      · rcases lt_or_gt_of_ne hab with h | h
        · left; rw [charListLe, if_neg hab]; exact decide_eq_true h
        · right; rw [charListLe, if_neg (fun he => hab he.symm)]; exact decide_eq_true h

theorem charListLe_trans : ∀ as bs cs : List Char, charListLe as bs = true →
    charListLe bs cs = true → charListLe as cs = true := by
  intro as
  induction as with
  | nil => intro bs cs h1 h2; rfl
  | cons a as2 ih =>
    intro bs cs h1 h2
    cases bs with
    | nil => rw [charListLe] at h1; exact absurd h1 (by decide)
    | cons b bs2 =>
      cases cs with
      | nil => rw [charListLe] at h2; exact absurd h2 (by decide)
      | cons c cs2 =>
        rw [charListLe] at h1 h2 ⊢
        by_cases hab : a = b
        · subst hab
          rw [if_pos rfl] at h1
          by_cases hbc : a = c
          · subst hbc
            rw [if_pos rfl] at h2 ⊢
            exact ih _ _ h1 h2
          · rw [if_neg hbc] at h2 ⊢
            exact h2
        · rw [if_neg hab] at h1
          have hlt1 : a < b := of_decide_eq_true h1
          by_cases hbc : b = c
          · subst hbc
            rw [if_neg hab]
            exact decide_eq_true hlt1
          · rw [if_neg hbc] at h2
            have hlt2 : b < c := of_decide_eq_true h2
            have hac : a < c := lt_trans hlt1 hlt2
            rw [if_neg (ne_of_lt hac)]
            exact decide_eq_true hac

theorem pyLe_total (a b : String) : pyLe a b ∨ pyLe b a :=
  charListLe_total a.toList b.toList

theorem pyLe_trans (a b c : String) : pyLe a b → pyLe b c → pyLe a c :=
  fun h1 h2 => charListLe_trans a.toList b.toList c.toList h1 h2

theorem sortedLt (l : List String) (hnd : l.Nodup) :
    List.Sorted pyLt (List.insertionSort pyLe l) := by
  haveI : IsTotal String pyLe := ⟨pyLe_total⟩
  haveI : IsTrans String pyLe := ⟨pyLe_trans⟩
  have hs : List.Sorted pyLe (List.insertionSort pyLe l) :=
    List.sorted_insertionSort pyLe l
  have hnd2 : (List.insertionSort pyLe l).Nodup :=
    (List.perm_insertionSort pyLe l).nodup_iff.2 hnd
  exact List.Pairwise.imp (fun h => ⟨h.1, h.2⟩) (List.Pairwise.and hs hnd2)

theorem setAdd_nodup (s : List String) (x : String) (h : s.Nodup) :
    (setAdd s x).Nodup := by
  rw [setAdd]
  by_cases hx : x ∈ s
  · rw [if_pos hx]; exact h
  · rw [if_neg hx]
    refine h.append (List.nodup_singleton x) ?_
    intro a ha hb
    rw [List.mem_singleton.1 hb] at ha
    exact hx ha

theorem groupInsert_nodup_values (d : List (String × List String)) (k v : String)
    (h : ∀ g ∈ d, g.2.Nodup) : ∀ g ∈ groupInsert d k v, g.2.Nodup := by
  induction d with
  | nil =>
    intro g hg
    rw [groupInsert] at hg
    rw [List.mem_singleton.1 hg]
    exact List.nodup_singleton v
  | cons p rest ih =>
    intro g hg
    rw [groupInsert] at hg
    by_cases hp : p.1 = k
    · rw [if_pos hp] at hg
      rcases List.mem_cons.1 hg with h1 | h1
      · rw [h1]; exact setAdd_nodup _ _ (h p (List.mem_cons_self _ _))
      · exact h g (List.mem_cons_of_mem _ h1)
    · rw [if_neg hp] at hg
      rcases List.mem_cons.1 hg with h1 | h1
      · rw [h1]; exact h p (List.mem_cons_self _ _)
      · exact ih (fun g2 hg2 => h g2 (List.mem_cons_of_mem _ hg2)) g h1

theorem groupInsert_keys_eq (d : List (String × List String)) (k v : String) :
    (groupInsert d k v).map Prod.fst =
      if k ∈ d.map Prod.fst then d.map Prod.fst else d.map Prod.fst ++ [k] := by
  induction d with
  | nil => simp [groupInsert]
  | cons p rest ih =>
    by_cases hp : p.1 = k
    · subst hp
      rw [groupInsert, if_pos rfl]
      simp [List.mem_cons]
    · rw [groupInsert, if_neg hp]
      simp only [List.map_cons, ih, List.mem_cons]
      by_cases hk : k ∈ rest.map Prod.fst
      · simp [hk]
      · have hkp : ¬ k = p.1 := fun hh => hp hh.symm
        simp [hk, hkp]

theorem groupInsert_keys_nodup (d : List (String × List String)) (k v : String)
    (h : (d.map Prod.fst).Nodup) : ((groupInsert d k v).map Prod.fst).Nodup := by
  rw [groupInsert_keys_eq]
  by_cases hk : k ∈ d.map Prod.fst
  · rw [if_pos hk]; exact h
  · rw [if_neg hk]
    refine h.append (List.nodup_singleton k) ?_
    intro a ha hb
    rw [List.mem_singleton.1 hb] at ha
    exact hk ha

theorem build_nodup_keys (findSrc : String → String → List String) (sys_dir : String)
    (keep : Bool) :
    ∀ (symbols : Dict) (d : List (String × List String)),
      (d.map Prod.fst).Nodup →
      ((build_file_to_syms findSrc sys_dir keep symbols d).map Prod.fst).Nodup := by
  intro symbols
  induction symbols with
  | nil => intro d h; exact h
  | cons p rest ih =>
    obtain ⟨sym, file⟩ := p
    intro d h
    rw [build_file_to_syms]
    by_cases hc : (keep || pyTake file 9 != "lib/kern/") = true
    · rw [if_pos hc]; exact ih _ (groupInsert_keys_nodup _ _ _ h)
    · rw [if_neg hc]; exact ih _ h

theorem build_nodup_values (findSrc : String → String → List String) (sys_dir : String)
    (keep : Bool) :
    ∀ (symbols : Dict) (d : List (String × List String)),
      (∀ g ∈ d, g.2.Nodup) →
      ∀ g ∈ build_file_to_syms findSrc sys_dir keep symbols d, g.2.Nodup := by
  intro symbols
  induction symbols with
  | nil => intro d h; exact h
  | cons p rest ih =>
    obtain ⟨sym, file⟩ := p
    intro d h
    rw [build_file_to_syms]
    by_cases hc : (keep || pyTake file 9 != "lib/kern/") = true
    · rw [if_pos hc]; exact ih _ (groupInsert_nodup_values _ _ _ h)
    · rw [if_neg hc]; exact ih _ h

theorem dictLookup_mem {α : Type} (d : List (String × α)) (k : String) (v : α)
    (h : dictLookup d k = some v) : (k, v) ∈ d := by
  induction d with
  | nil => simp [dictLookup] at h
  | cons p rest ih =>
    rw [dictLookup] at h
    by_cases hp : p.1 = k
    · rw [if_pos hp] at h
      have hv : v = p.2 := (Option.some.inj h).symm
      subst hv
      have heq : (k, p.2) = p := by rw [← hp]
      rw [heq]
      exact List.mem_cons_self _ _
    · rw [if_neg hp] at h
      exact List.mem_cons_of_mem _ (ih h)

theorem sortSyms_sorted_of (d : List (String × List String)) (f : String)
    (h : ∀ g ∈ d, g.2.Nodup) : List.Sorted pyLt (sortSyms d f) := by
  rw [sortSyms]
  cases hl : dictLookup d f with
  | none => exact sortedLt [] List.nodup_nil
  | some syms => exact sortedLt syms (h (f, syms) (dictLookup_mem d f syms hl))

theorem getLastD_mem (l : List String) (x : String) (h : l ≠ []) :
    l.getLastD x ∈ l := by
  induction l generalizing x with
  | nil => exact absurd rfl h
  | cons b t ih =>
    rw [List.getLastD_cons]
    cases t with
    | nil => exact List.mem_singleton_self b
    | cons c t2 => exact List.mem_cons_of_mem _ (ih b (by simp))

theorem renderLines_eq_joinBlocks (d : List (String × List String)) :
    ∀ (fns : List String), fns.Nodup →
      renderLines d (fns.getLastD "") fns = joinBlocks (fns.map (reportBlock d)) := by
  intro fns
  induction fns with
  | nil => intro h; rfl
  | cons f rest ih =>
    intro h
    cases rest with
    | nil =>
      rw [renderLines, renderLines]
      simp [joinBlocks, reportBlock, List.getLastD]
    | cons g rest2 =>
      have hne : f ≠ (f :: g :: rest2).getLastD "" := by
        have hmem : (g :: rest2).getLastD "" ∈ g :: rest2 :=
          getLastD_mem _ _ (by simp)
        have hfst : f ∉ g :: rest2 := (List.nodup_cons.1 h).1
        intro he
        rw [show ((f :: g :: rest2 : List String).getLastD "") =
          ((g :: rest2 : List String).getLastD "") from rfl] at he
        exact hfst (he ▸ hmem)
      rw [renderLines, if_neg hne]
      rw [show ((f :: g :: rest2 : List String).getLastD "") =
        ((g :: rest2 : List String).getLastD "") from rfl]
      rw [ih ((List.nodup_cons.1 h).2)]
      simp [joinBlocks, reportBlock, List.append_assoc]

/-- C8: the kept file list is strictly sorted; every block's symbol list is
strictly sorted; the printed report is exactly the blocks (header line, then
two-space-indented symbol lines) joined by single blank lines; and with no
surviving group the report is empty. -/
theorem c8_report_format (env : Env) (symbols : Dict) (sys_dir : String)
    (keep_libkern : Bool) (kernel_symbols : List String) :
    List.Sorted pyLt (kept_file_names
      (build_file_to_syms env.findSrc sys_dir keep_libkern symbols []) kernel_symbols) ∧
    (∀ f : String, List.Sorted pyLt
      (sortSyms (build_file_to_syms env.findSrc sys_dir keep_libkern symbols []) f)) ∧
    render_report (build_file_to_syms env.findSrc sys_dir keep_libkern symbols [])
        (kept_file_names (build_file_to_syms env.findSrc sys_dir keep_libkern symbols [])
          kernel_symbols) =
      joinBlocks ((kept_file_names (build_file_to_syms env.findSrc sys_dir keep_libkern
          symbols []) kernel_symbols).map
        (reportBlock (build_file_to_syms env.findSrc sys_dir keep_libkern symbols []))) ∧
    (kept_file_names (build_file_to_syms env.findSrc sys_dir keep_libkern symbols [])
        kernel_symbols = [] →
      render_report (build_file_to_syms env.findSrc sys_dir keep_libkern symbols [])
        (kept_file_names (build_file_to_syms env.findSrc sys_dir keep_libkern symbols [])
          kernel_symbols) = []) := by
  have hkeys : ((build_file_to_syms env.findSrc sys_dir keep_libkern symbols []).map
      Prod.fst).Nodup :=
    build_nodup_keys _ _ _ symbols [] (by simp)
  have hvals : ∀ g ∈ build_file_to_syms env.findSrc sys_dir keep_libkern symbols [],
      g.2.Nodup :=
    build_nodup_values _ _ _ symbols [] (by simp)
  have hkept_nodup : (((build_file_to_syms env.findSrc sys_dir keep_libkern symbols
      []).filter (groupKept kernel_symbols)).map Prod.fst).Nodup :=
    hkeys.sublist ((List.filter_sublist _).map Prod.fst)
  refine ⟨?_, ?_, ?_, ?_⟩
  · rw [kept_file_names]
    exact sortedLt _ hkept_nodup
  · intro f
    exact sortSyms_sorted_of _ f hvals
  · rw [render_report]
    apply renderLines_eq_joinBlocks
    rw [kept_file_names]
    exact (List.perm_insertionSort pyLe _).nodup_iff.2 hkept_nodup
  · intro h
    rw [h]
    rfl

/-- Witness for C8: with everything empty the report is empty. -/
theorem c8_witness :
    render_report (build_file_to_syms envEmpty.findSrc "sys" false [] [])
      (kept_file_names (build_file_to_syms envEmpty.findSrc "sys" false [] []) []) = [] :=
  (c8_report_format envEmpty [] "sys" false []).2.2.2 rfl
